import Mathlib

/-!
Verification of the Fatebook Obsidian plugin (`src/main.js`) against its
natural-language specification.

The source file contains two concatenated revisions of the plugin.  Where the
two revisions agree (link enhancement, the debounce wrapper, question-id
extraction, message handling of the first revision) a single embedding is
given; where they differ (`checkLoginStatus`) both variants are embedded.

Modelling conventions:
* JavaScript strings are `String` / `List Char`;
* `fetch` and `response.json()` are abstracted as an argument of type
  `Except Unit _`: `Except.error ()` models a thrown error, `Except.ok`
  a delivered response;
* fractional probabilities are rationals (`ℚ`), and `Number.toFixed(0)` is
  round-half-up (`⌊q + 1/2⌋`, the ES semantics on exactly represented values);
* DOM / editor side effects are reified as values (lists of effects, or the
  new document text).
-/

namespace Fatebook

abbrev Chars := List Char

/-! ### The `getQuestion` response and `enhanceFatebookLink` (main.js lines 167-192 and 548-573)

The JSON body destructured by `enhanceFatebookLink`.  `title` is a string
(`if (title)` tests JS truthiness, i.e. present and non-empty); `resolution`
may be absent (`undefined === 'YES'` is `false`, modelled by `Option`);
`yourLatestPrediction` is a fractional probability or absent. -/
structure Question where
  title : String
  resolved : Bool
  resolution : Option String
  yourLatestPrediction : Option ℚ
deriving DecidableEq

/-- An HTTP response as seen by `enhanceFatebookLink`: the `ok` flag and the
parsed JSON body. -/
structure Response where
  ok : Bool
  body : Question
deriving DecidableEq

/-- `(x).toFixed(0)`: the integer nearest to `q`, ties rounded to the larger
integer (ES2023 Number.prototype.toFixed step semantics), as round-half-up. -/
def toFixed0 (q : ℚ) : ℤ := ⌊q + 1/2⌋

/-- `enhanceFatebookLink` (main.js 167-192 / 548-573) with the network call
abstracted: the argument is the outcome of
`fetch(.../api/v0/getQuestion?...)` followed by `response.json()`.
`Except.error ()` covers a thrown fetch or JSON parse; the code catches any
throw (including the `!response.ok` throw) and returns `null` (`none`).
With a delivered body, a falsy (empty) `title` also yields `null`; otherwise
the enhanced text is `statusEmoji ++ " " ++ title ++ predictionText`. -/
def enhanceFatebookLink (resp : Except Unit Response) : Option String :=
  match resp with
  | .error _ => none
  | .ok r =>
    if !r.ok then none
    else if r.body.title = "" then none
    else
      let statusEmoji : String :=
        if r.body.resolved then
          if r.body.resolution = some "YES" then "✅ "
          else if r.body.resolution = some "NO" then "❌ "
          else "🤷"
        else "⚖"
      let predictionText : String :=
        match r.body.yourLatestPrediction with
        | some p => " (You: " ++ toString (toFixed0 (p * 100)) ++ "% yes)"
        | none => ""
      some (statusEmoji ++ " " ++ r.body.title ++ predictionText)

/-- Concrete question used to witness the C1 theorem. -/
def q1W : Question := ⟨"Will it rain?", true, some "YES", some (7/10)⟩

/-! ### `handleIframeMessage` and `getWebviewByEmbedId` (main.js lines 91-126)

The three iframes the plugin may own.  `login` exists only after
`openLoginModal` created it (`this.loginWebview` starts as `null`), which the
model tracks with a boolean parameter. -/
inductive Webview where
  | predict
  | question
  | login
deriving DecidableEq

/-- `rest.box` of a resize message. -/
structure Box where
  width : Int
  height : Int
deriving DecidableEq

/-- The destructured fields of a posted message's `data`.  Fields that the
handler reads but that a message may omit are `Option`s; `isFatebook` is the
truthiness of the discriminator. -/
structure MsgData where
  isFatebook : Bool
  action : String
  embedId : String
  predictionLink : Option String
  src : Option String
  box : Option Box
deriving DecidableEq

/-- A truthy value the lookup `webviews[embedId]` can produce: one of the
plugin's iframes, or a member inherited from `Object.prototype` (the object
literal's prototype) — for `embedId` `"toString"` the inherited function, for
`"__proto__"` the accessor's result `Object.prototype` itself, all truthy. -/
inductive JsRef where
  | webview (w : Webview)
  | protoMember (name : String)
deriving DecidableEq

/-- The property names every object literal inherits from `Object.prototype`
(the Annex B `__proto__` accessor included); `webviews[name]` is a truthy
object for each of them rather than `undefined`. -/
def protoProps : List String :=
  ["constructor", "hasOwnProperty", "isPrototypeOf", "propertyIsEnumerable",
   "toLocaleString", "toString", "valueOf", "__defineGetter__", "__defineSetter__",
   "__lookupGetter__", "__lookupSetter__", "__proto__"]

/-- The side effects `handleIframeMessage` can perform, reified.
`setSrc` covers both a real iframe navigation and the `src` assignment on an
inherited `Object.prototype` member; `throwTypeError` marks the one place the
handler would throw: reading `rest.box.width` when `rest.box` is `undefined`. -/
inductive Effect where
  | closePredictionModal
  | predictionCreated (link : Option String)
  | setWidthHeight (w h : Int)
  | setSrc (target : JsRef) (src : Option String)
  | logUnhandled (action : String)
  | throwTypeError
deriving DecidableEq

/-- `getWebviewByEmbedId` (main.js 119-126): `webviews[embedId] || null` over
the three-key object literal.  An own key wins first (`'login'` holds `null`
until `openLoginModal` created the webview, `loginSet = false`); otherwise the
lookup walks the prototype chain, so a name of an `Object.prototype` member
returns that truthy inherited object and only the remaining ids (`undefined`
lookups) fall through to `null`. -/
def getWebviewByEmbedId (loginSet : Bool) (embedId : String) : Option JsRef :=
  if embedId = "predict-modal" then some (JsRef.webview Webview.predict)
  else if embedId = "question-loader" then some (JsRef.webview Webview.question)
  else if embedId = "login" then (if loginSet then some (JsRef.webview Webview.login) else none)
  else if embedId ∈ protoProps then some (JsRef.protoMember embedId)
  else none

/-- `handleIframeMessage` (main.js 91-117) as an effect-list function.  A
`switch` is an equality chain on `action`; the `data` argument is `none` for a
null/undefined `data` (`!data?.isFatebook` returns early).  The dead
`action === 'resize_iframe'` test sits, as in the source, inside the
`'load-url'` case. -/
def handleIframeMessage (loginSet : Bool) (data : Option MsgData) : List Effect :=
  match data with
  | none => []
  | some d =>
    if !d.isFatebook then []
    else if d.action = "prediction_cancel" then [Effect.closePredictionModal]
    else if d.action = "prediction_create_success" then
      [Effect.predictionCreated d.predictionLink, Effect.closePredictionModal]
    else if d.action = "load-url" then
      match getWebviewByEmbedId loginSet d.embedId with
      | some iframe =>
          if d.action = "resize_iframe" then
            match d.box with
            | some b => [Effect.setWidthHeight b.width b.height]
            | none => [Effect.throwTypeError]
          else if d.action = "load-url" then [Effect.setSrc iframe d.src]
          else []
      | none => []
    else [Effect.logUnhandled d.action]

/-- Concrete message used to witness the C10 theorem: not marked as Fatebook,
action `load-url`, unknown embed id that is also no `Object.prototype`
member. -/
def msgW : MsgData := ⟨false, "load-url", "bogus", none, none, none⟩

/-- Concrete message refuting C10 as stated: `embedId` `"__proto__"` is not a
known embed identifier, yet `webviews["__proto__"] || null` is the truthy
`Object.prototype`, and the handler assigns `rest.src` to its `src`
property — a state change. -/
def msgProto : MsgData := ⟨true, "load-url", "__proto__", none, some "http://example.com", none⟩

/-! ### `getQuestionIdFromUrl` (main.js lines 194-198 and 575-579)

```js
const lastSegment = url.substring(url.lastIndexOf("/") + 1);
const parts = lastSegment.match(/(.*)--(.*?)(?:\?|$|&)/);
return parts ? parts[2] : lastSegment || "";
```

The regex is embedded with JavaScript semantics: `.` matches any character
except the four ECMAScript line terminators; `(.*)` is greedy, `(.*?)` lazy,
`$` (no `m` flag) matches only at the end of the input, and `match` finds the
leftmost-starting match. -/

/-- A character matched by an ECMAScript `.` (not a line terminator). -/
def jsDot (c : Char) : Bool := !(c = '\n' || c = '\r' || c = '\u2028' || c = '\u2029')

/-- A character matching the regex's terminator alternative `(?:\?|$|&)`. -/
def stopChar (c : Char) : Bool := c = '?' || c = '&'

/-- The lazy part `(.*?)(?:\?|$|&)` of the question-id regex, applied to the
text after a `--`: the shortest run of `.`-characters up to a `?`/`&` or the
end of the input; `none` when a line terminator blocks every alternative. -/
def lazyCap : Chars → Option Chars
  | [] => some []
  | c :: rest =>
      if stopChar c then some []
      else if jsDot c then (lazyCap rest).map (fun r => c :: r)
      else none

/-- The anchored attempt `(.*)--(.*?)(?:\?|$|&)` at a fixed start position:
the greedy `(.*)` prefers consuming the current character (a deeper match,
i.e. a later `--`) and falls back to matching `--` here.  Returns the second
capture group of the match the backtracking engine settles on. -/
def greedyFrom : Chars → Option Chars
  | [] => none
  | c :: rest =>
      match (if jsDot c then greedyFrom rest else none) with
      | some r => some r
      | none =>
        match rest with
        | c2 :: rest2 => if c = '-' ∧ c2 = '-' then lazyCap rest2 else none
        | [] => none

/-- `String.prototype.match` of the unanchored regex: the attempt is made at
each successive start position, keeping the first that succeeds. -/
def findMatch : Chars → Option Chars
  | [] => none
  | c :: rest =>
      match greedyFrom (c :: rest) with
      | some r => some r
      | none => findMatch rest

/-- `url.substring(url.lastIndexOf("/") + 1)`: everything after the final
`/`, the whole string when there is none. -/
def lastSegment (l : Chars) : Chars := (l.reverse.takeWhile (fun c => c ≠ '/')).reverse

/-- `getQuestionIdFromUrl` (main.js 194-198): the second capture of the regex
match on the last path segment when the match succeeds, otherwise the segment
itself (`lastSegment || ""` returns `""` for the empty segment, which is the
empty segment itself). -/
def getQuestionIdFromUrl (url : String) : String :=
  let seg := lastSegment url.toList
  match findMatch seg with
  | some cap => String.mk cap
  | none => String.mk seg

/-- Modelled from the claim's words: the portion of the last segment after the
LAST occurrence of `--`, truncated at the first `?` or `&`.  The recursion
prefers a result found in the tail, hence the rightmost `--`. -/
def specSplit : Chars → Option Chars
  | [] => none
  | c :: rest =>
      match specSplit rest with
      | some r => some r
      | none =>
        match rest with
        | c2 :: rest2 =>
            if c = '-' ∧ c2 = '-' then some (rest2.takeWhile (fun c => !stopChar c)) else none
        | [] => none

/-- Modelled from the claim's words: the last path segment; the portion after
the last `--` up to the first `?`/`&`/end when the segment contains `--`;
otherwise the whole segment (empty for an empty segment). -/
def specQuestionId (url : String) : String :=
  let seg := lastSegment url.toList
  match specSplit seg with
  | some r => String.mk r
  | none => String.mk seg

/-- Concrete URL witnessing the C3 theorem. -/
def urlW : String := "https://fatebook.io/q/will-it-rain--abc123"

/-- Concrete URL refuting C3 as stated: the last segment contains a line
terminator between the `--` and the end, so the JS regex (whose `.` cannot
cross it) fails to match at all and the whole segment is returned. -/
def urlCex : String := "https://fatebook.io/q/a--b\nc"

/-! ### `checkLoginStatus` (main.js lines 238-247 and 622-631)

The two revisions check login differently.  The session body is the parsed
JSON of the checked endpoint; only the presence of its `user` field matters. -/
structure SessionBody where
  user : Option String
deriving DecidableEq

/-- A response as seen by the probe variant: HTTP status plus parsed body
(which that variant never reads). -/
structure StatusResp where
  status : Nat
  body : SessionBody
deriving DecidableEq

/-- `checkLoginStatus` of the second revision (main.js 622-631): fetch
`api/auth/session`, parse JSON, `isLoggedIn = data.user !== undefined`; any
throw (fetch or json) gives `false`. -/
def checkLoginStatusSession (resp : Except Unit SessionBody) : Bool :=
  match resp with
  | .error _ => false
  | .ok d => d.user.isSome

/-- `checkLoginStatus` of the first revision (main.js 238-247): fetch a probe
`getQuestion` URL with credentials and set `isLoggedIn = response.status !== 401`
without reading the body; a throw gives `false`. -/
def checkLoginStatusProbe (resp : Except Unit StatusResp) : Bool :=
  match resp with
  | .error _ => false
  | .ok r => decide (r.status ≠ 401)

/-! ### `debounce` (main.js lines 4-14, used at line 24 with `wait = 60000`)

```js
function debounce(func, wait) {
    let timeout;
    return function executedFunction(...args) {
        const later = () => { clearTimeout(timeout); func(...args); };
        clearTimeout(timeout);
        timeout = setTimeout(later, wait);
    };
}
```

Operational model over a single-threaded timeline: a call event is a pair
`(t, a)` of its millisecond timestamp and its arguments; the closure state is
the pending timer `some (fireTime, args)` or `none`.  Between consecutive
events the pending timer fires when its deadline is reached; a call clears
any still-pending timer and schedules `(t + wait, a)`.  (`clearTimeout` on an
already-fired id is a no-op, as in the source's `later`.) -/

/-- Run the debounced wrapper over the remaining timeline given the pending
timer, returning the list of `(time, args)` executions of `func`. -/
def debRun (wait : Nat) {α : Type} : List (Nat × α) → Option (Nat × α) → List (Nat × α)
  | [], none => []
  | [], some p => [p]
  | (t, a) :: rest, none => debRun wait rest (some (t + wait, a))
  | (t, a) :: rest, some (ft, b) =>
      (if ft ≤ t then [(ft, b)] else []) ++ debRun wait rest (some (t + wait, a))

/-- The executions of `func` produced by a finite sequence of calls to the
wrapper returned by `debounce(func, wait)` (initially no pending timer). -/
def debounceExec (wait : Nat) {α : Type} (calls : List (Nat × α)) : List (Nat × α) :=
  debRun wait calls none

/-- Modelled from the claim's words: a call `(t, a)` leads to an execution of
`func` at `t + wait` with exactly the arguments `a` when no further call
happens before `t + wait`; a call followed by another one within the wait
window is cancelled and produces no execution. -/
def specDebounce (wait : Nat) {α : Type} : List (Nat × α) → List (Nat × α)
  | [] => []
  | [(t, a)] => [(t + wait, a)]
  | (t, a) :: (t2, b) :: rest =>
      (if t + wait ≤ t2 then [(t + wait, a)] else []) ++ specDebounce wait ((t2, b) :: rest)

/-- Strictly increasing call timestamps (a real single-threaded timeline). -/
def strictTimes {α : Type} : List (Nat × α) → Bool
  | [] => true
  | [_] => true
  | (t, _) :: (t2, b) :: rest => decide (t < t2) && strictTimes ((t2, b) :: rest)

/-- Concrete call timeline used to witness the C6 theorem. -/
def callsW : List (Nat × Nat) := [(0, 1), (5, 2), (100, 3)]

/-! ### `ensureLoggedIn` / `openLoginModal` polling (main.js lines 249-289)

`openLoginModal` starts `setInterval(async () => { await checkLoginStatus();
if (isLoggedIn) { clearInterval(...); ...; loginCallbacks.forEach(cb => cb());
loginCallbacks = []; } }, 1000)`, and `ensureLoggedIn` first re-checks login
and then either returns immediately (logged in) or pushes its promise's
`resolve` onto `loginCallbacks`.

Operational model: the state carries `isLoggedIn`, whether the interval is
still installed, and the queued promise ids; events are poll ticks and
`ensureLoggedIn` calls, each parameterised by the status the embedded
`checkLoginStatus` call reports.  Each step returns the promise ids resolved
during it. -/
structure PollState where
  isLoggedIn : Bool
  intervalActive : Bool
  callbacks : List Nat
deriving DecidableEq

/-- A login-flow event: an interval tick, or a call to `ensureLoggedIn` with a
fresh promise id; `status` is what `checkLoginStatus` reports in that step. -/
inductive LoginEv where
  | tick (status : Bool)
  | ensure (id : Nat) (status : Bool)
deriving DecidableEq

/-- One step of the login flow (main.js 249-259 and 275-289).  A tick after
`clearInterval` never runs.  A successful tick clears the interval, resolves
every queued callback and resets the queue; an `ensureLoggedIn` call while
logged out queues its resolver, and resolves immediately otherwise. -/
def loginStep : PollState → LoginEv → PollState × List Nat
  | s, .tick st =>
      if s.intervalActive then
        if st then ({ isLoggedIn := true, intervalActive := false, callbacks := [] }, s.callbacks)
        else ({ s with isLoggedIn := false }, [])
      else (s, [])
  | s, .ensure id st =>
      if st then ({ s with isLoggedIn := true }, [id])
      else ({ s with isLoggedIn := false, callbacks := s.callbacks ++ [id] }, [])

/-- Run a list of login-flow events, collecting all resolved promise ids in
order. -/
def runLogin : PollState → List LoginEv → PollState × List Nat
  | s, [] => (s, [])
  | s, e :: es =>
      let step := loginStep s e
      let rest := runLogin step.1 es
      (rest.1, step.2 ++ rest.2)

/-- The status a login-flow event observes. -/
def evStatus : LoginEv → Bool
  | .tick st => st
  | .ensure _ st => st

/-- The promise ids queued by the `ensureLoggedIn` events of a list (while
logged out every `ensure` queues). -/
def queuedIds : List LoginEv → List Nat
  | [] => []
  | .tick _ :: es => queuedIds es
  | .ensure id _ :: es => id :: queuedIds es

/-- Whether an event is a poll tick. -/
def isTick : LoginEv → Bool
  | .tick _ => true
  | .ensure _ _ => false

/-- Concrete event prefix used to witness the C7 theorem: two waiters queue
while polls observe logged-out. -/
def preW : List LoginEv := [LoginEv.ensure 1 false, LoginEv.tick false, LoginEv.ensure 2 false]

/-- Concrete tick suffix used to witness the C7 theorem: after the interval is
cleared even a logged-in tick is a no-op. -/
def restW : List LoginEv := [LoginEv.tick true, LoginEv.tick false]

/-- Concrete initial state used to witness the C7 theorem. -/
def pollW : PollState := ⟨false, true, []⟩

/-! ### `enhanceMarkdownLinks` (main.js lines 292-330 and 669-709)

The scan phase runs
`/\[([^\]]*)\]\((https?:\/\/(?:www\.)?fatebook\.io\/q\/[^)]+)\)/g`
over the document, collecting `(linkText, url)` per match; per match it
computes the question id, fetches, and queues a change
`{from: fullMatch, to: "[enhanced](url)"}` when the enhanced text is truthy
and differs from the current text; the apply phase replaces, for each queued
change in order, the first `indexOf` occurrence of `from` in the then-current
document with `to`. -/

/-- `leadsWith pat l`: `pat` is an initial run of `l` (character-wise). -/
def leadsWith : Chars → Chars → Bool
  | [], _ => true
  | _ :: _, [] => false
  | p :: ps, c :: cs => p = c && leadsWith ps cs

/-- `occursIn pat l`: `pat` occurs contiguously somewhere in `l`
(`l.indexOf(pat) !== -1`). -/
def occursIn (pat : Chars) : Chars → Bool
  | [] => leadsWith pat []
  | c :: rest => leadsWith pat (c :: rest) || occursIn pat rest

/-- Replace the first occurrence of `pat` in the content with `repl`; the
content is unchanged when `pat` does not occur.  This is
`content.indexOf(from)` followed by `editor.replaceRange(to, from, to)` over
the computed offsets (main.js 314-323). -/
def replaceFirst (pat repl : Chars) : Chars → Chars
  | [] => if leadsWith pat [] then repl else []
  | c :: rest =>
      if leadsWith pat (c :: rest) then repl ++ (c :: rest).drop pat.length
      else c :: replaceFirst pat repl rest

/-- Strip an expected literal prefix, returning the remainder. -/
def stripPre : Chars → Chars → Option Chars
  | [], l => some l
  | _ :: _, [] => none
  | p :: ps, c :: cs => if c = p then stripPre ps cs else none

/-- The anchored attempt of the link regex
`\[([^\]]*)\]\((https?:\/\/(?:www\.)?fatebook\.io\/q\/[^)]+)\)` at the start
of `l`: on success, the pair of capture groups (link text, url) and the
remainder after the match.  Each regex piece is deterministic here: `[^\]]*`
and `[^)]+` are maximal runs forced by the following literal, and the optional
`s` / `www.` admit no backtracking (the following literal cannot start with
them). -/
def matchLinkAt (l : Chars) : Option (Chars × Chars × Chars) :=
  match l with
  | '[' :: r1 =>
    let text := r1.takeWhile (fun c => c ≠ ']')
    (match r1.dropWhile (fun c => c ≠ ']') with
     | ']' :: '(' :: r2 =>
       (match stripPre ('h' :: 't' :: 't' :: 'p' :: []) r2 with
        | none => none
        | some r3 =>
          let sPart : Chars × Chars :=
            match r3 with
            | 's' :: r => (['s'], r)
            | r => ([], r)
          (match stripPre (':' :: '/' :: '/' :: []) sPart.2 with
           | none => none
           | some r5 =>
             let wPart : Chars × Chars :=
               match stripPre ('w' :: 'w' :: 'w' :: '.' :: []) r5 with
               | some r => (['w', 'w', 'w', '.'], r)
               | none => ([], r5)
             (match stripPre "fatebook.io/q/".toList wPart.2 with
              | none => none
              | some r7 =>
                let upath := r7.takeWhile (fun c => c ≠ ')')
                if upath = [] then none
                else
                  match r7.dropWhile (fun c => c ≠ ')') with
                  | ')' :: rest =>
                      some (text,
                            ('h' :: 't' :: 't' :: 'p' :: []) ++ sPart.1
                              ++ (':' :: '/' :: '/' :: []) ++ wPart.1
                              ++ "fatebook.io/q/".toList ++ upath,
                            rest)
                  | _ => none)))
     | _ => none)
  | _ => none

/-- The `regex.exec` loop: attempt a match at each successive position,
resuming after the end of each match.  Fuel-indexed for structural recursion;
every successful match consumes at least one character, so `fuel = l.length`
never runs out before the list does. -/
def scanGo : Nat → Chars → List (Chars × Chars)
  | 0, _ => []
  | _ + 1, [] => []
  | fuel + 1, c :: rest =>
      match matchLinkAt (c :: rest) with
      | some (t, u, rem) => (t, u) :: scanGo fuel rem
      | none => scanGo fuel rest

/-- All `(linkText, url)` matches of the link regex over a document, in order
(main.js 297-303). -/
def scanLinks (content : Chars) : List (Chars × Chars) := scanGo content.length content

/-- The full text `[text](url)` of a link match. -/
def fullStr (t u : Chars) : Chars := '[' :: (t ++ ']' :: '(' :: (u ++ [')']))

/-- Interleave gap segments and match texts:
`interleave [g0, g1, ..., gn] [p1, ..., pn] = g0 ++ p1 ++ g1 ++ ... ++ pn ++ gn`. -/
def interleave : List Chars → List Chars → Chars
  | [], _ => []
  | g :: _, [] => g
  | g :: gs, p :: ps => g ++ (p ++ interleave gs ps)

/-- The question id fetched for a matched url. -/
def qidOf (u : Chars) : String := getQuestionIdFromUrl (String.mk u)

/-- A queued change of the apply phase (`{from, to}` in the source). -/
structure Change where
  fromStr : Chars
  toStr : Chars
deriving DecidableEq

/-- A fetch environment: the response (or throw) delivered to the `i`-th
fetch of the pass, which requests the given question id.  Indexing by call
position keeps distinct fetches of the same question independent, as on a real
network. -/
abbrev FetchEnv := Nat → String → Except Unit Response

/-- The change queued for the `i`-th match (main.js 304-311): present exactly
when the enhanced text is non-null, non-empty (JS truthiness of
`enhancedText &&`) and differs from the link's current display text. -/
def changeFor (env : FetchEnv) (i : Nat) (t u : Chars) : Option Change :=
  match enhanceFatebookLink (env i (qidOf u)) with
  | some e => if e ≠ "" ∧ e.toList ≠ t then some ⟨fullStr t u, fullStr e.toList u⟩ else none
  | none => none

/-- The queued changes for a match list, fetch indices starting at `i`. -/
def changesFrom (env : FetchEnv) : Nat → List (Chars × Chars) → List Change
  | _, [] => []
  | i, (t, u) :: ms =>
      match changeFor env i t u with
      | some ch => ch :: changesFrom env (i + 1) ms
      | none => changesFrom env (i + 1) ms

/-- The apply phase (main.js 314-323): fold the queued changes over the
document, replacing the first occurrence of each `from` with its `to`. -/
def applyChanges (content : Chars) (chs : List Change) : Chars :=
  chs.foldl (fun c ch => replaceFirst ch.fromStr ch.toStr c) content

/-- `enhanceMarkdownLinks` (main.js 292-330) for a given fetch environment:
scan, queue changes, apply.  (The `view.editor === editor` re-check before
applying is always true in this single-pass model.) -/
def enhanceMarkdownLinks (env : FetchEnv) (content : Chars) : Chars :=
  applyChanges content (changesFrom env 0 (scanLinks content))

/-- The display text a match ends up with: the enhanced text when a change is
queued for it, its current text otherwise. -/
def rewriteText (env : FetchEnv) (i : Nat) (t u : Chars) : Chars :=
  match enhanceFatebookLink (env i (qidOf u)) with
  | some e => if e ≠ "" ∧ e.toList ≠ t then e.toList else t
  | none => t

/-- The intended final text of each match, in order: `[newText](url)` with the
url unchanged. -/
def rewritePieces (env : FetchEnv) : Nat → List (Chars × Chars) → List Chars
  | _, [] => []
  | i, (t, u) :: ms => fullStr (rewriteText env i t u) u :: rewritePieces env (i + 1) ms

/-- The matches as they stand after the intended rewrite. -/
def rewrittenMatches (env : FetchEnv) : Nat → List (Chars × Chars) → List (Chars × Chars)
  | _, [] => []
  | i, (t, u) :: ms => (rewriteText env i t u, u) :: rewrittenMatches env (i + 1) ms

/-- The no-mistargeting condition for the apply phase: walking the matches in
order with `acc` the already-rewritten document prefix, each queued change's
`from` text must not occur in the document strictly before its own match
(i.e. not in `acc ++ gap ++ from-minus-last-char`), so `indexOf` finds the
intended occurrence. -/
def applySafe (env : FetchEnv) : Nat → Chars → List Chars → List (Chars × Chars) → Bool
  | _, _, _, [] => true
  | i, acc, g :: gs, (t, u) :: ms =>
      match changeFor env i t u with
      | some ch =>
          !(occursIn (fullStr t u) (acc ++ g ++ (fullStr t u).dropLast))
            && applySafe env (i + 1) (acc ++ g ++ ch.toStr) gs ms
      | none => applySafe env (i + 1) (acc ++ g ++ fullStr t u) gs ms
  | _, _, [], _ :: _ => false

/-! ### Concrete documents and fetch environments for the C4 / C8 / C9
theorems. -/

/-- Environment whose every fetch delivers the unresolved question `T`. -/
def envC8 : FetchEnv := fun _ _ => Except.ok ⟨true, ⟨"T", false, none, none⟩⟩

/-- Adversarial document for the C8 counterexample: the first link's URL
(matched by `[^)]+`, which admits `[`, `(` and `/`) contains, together with
the first link's closing parenthesis, a copy of the second link's full text,
so the apply phase's `indexOf` finds that copy first. -/
def contentC8 : Chars :=
  "[⚖ T](https://fatebook.io/q/[y](https://fatebook.io/q/z) [y](https://fatebook.io/q/z)".toList

/-- The two matches the scan finds in `contentC8`. -/
def msC8 : List (Chars × Chars) :=
  [("⚖ T".toList, "https://fatebook.io/q/[y](https://fatebook.io/q/z".toList),
   ("y".toList, "https://fatebook.io/q/z".toList)]

/-- The gaps of `contentC8` around its two matches. -/
def gapsC8 : List Chars := ["".toList, " ".toList, "".toList]

/-- Environment whose every fetch delivers the unresolved question `P`. -/
def envW8 : FetchEnv := fun _ _ => Except.ok ⟨true, ⟨"P", false, none, none⟩⟩

/-- Ordinary document for the C8 witness. -/
def contentW8 : Chars := "x [p](https://fatebook.io/q/id1) y".toList

/-- The single match of `contentW8`. -/
def msW8 : List (Chars × Chars) := [("p".toList, "https://fatebook.io/q/id1".toList)]

/-- The gaps of `contentW8`. -/
def gapsW8 : List Chars := ["x ".toList, " y".toList]

/-- Environment whose first fetch throws and whose later fetches deliver the
unresolved question `N` (a flaky network). -/
def envFail0 : FetchEnv := fun n _ =>
  match n with
  | 0 => Except.error ()
  | _ + 1 => Except.ok ⟨true, ⟨"N", false, none, none⟩⟩

/-- Ordinary two-link document for the C4 witness; its first fetch fails. -/
def contentW4 : Chars := "[a](https://fatebook.io/q/q1) and [b](https://fatebook.io/q/q2)".toList

/-- Matches of `contentW4` before the failing one (none: it is the first). -/
def preW4 : List (Chars × Chars) := []

/-- Text and URL of the failing match of `contentW4`. -/
def tW4 : Chars := "a".toList

/-- URL of the failing match of `contentW4`. -/
def uW4 : Chars := "https://fatebook.io/q/q1".toList

/-- Matches of `contentW4` after the failing one. -/
def postW4 : List (Chars × Chars) := [("b".toList, "https://fatebook.io/q/q2".toList)]

/-- The gaps of `contentW4`. -/
def gapsW4 : List Chars := ["".toList, " and ".toList, "".toList]

/-- Adversarial document for the C4 counterexample, built like `contentC8`:
the first link's fetch fails, and the second link's queued change mis-targets
the copy of its text inside the first link's URL. -/
def contentC4 : Chars :=
  "[x](https://fatebook.io/q/[w](https://fatebook.io/q/v) [w](https://fatebook.io/q/v)".toList

/-- URL of the failing (first) match of `contentC4`. -/
def uC4fail : Chars := "https://fatebook.io/q/[w](https://fatebook.io/q/v".toList

/-- Full text of the failing (first) match of `contentC4`. -/
def fullC4fail : Chars := fullStr "x".toList uC4fail

/-- Environment whose every fetch delivers the unresolved question `Q`. -/
def envW9 : FetchEnv := fun _ _ => Except.ok ⟨true, ⟨"Q", false, none, none⟩⟩

/-- Ordinary document for the C9 witness. -/
def contentW9 : Chars := "see [q](https://fatebook.io/q/abc) ok".toList

/-- The single match of `contentW9`. -/
def msW9 : List (Chars × Chars) := [("q".toList, "https://fatebook.io/q/abc".toList)]

/-- The gaps of `contentW9`. -/
def gapsW9 : List Chars := ["see ".toList, " ok".toList]

/-- Environment whose every fetch delivers the unresolved question `S`. -/
def envC9 : FetchEnv := fun _ _ => Except.ok ⟨true, ⟨"S", false, none, none⟩⟩

/-- Adversarial document for the C9 counterexample (same shape as
`contentC8`): the first run mis-targets the nested copy, leaving the second
link's text stale, so a second run with the same responses queues a change
again and alters the document once more. -/
def contentC9 : Chars :=
  "[⚖ S](https://fatebook.io/q/[k](https://fatebook.io/q/m) [k](https://fatebook.io/q/m)".toList

end Fatebook

namespace Fatebook

/-- C1: for every successful `getQuestion` response whose JSON has a non-empty
title, `enhanceFatebookLink` returns a string whose status glyph is chosen by
exactly four cases (✅ for resolved YES, ❌ for resolved NO, 🤷 for resolved
with any other resolution, ⚖ for unresolved), followed by a space and the
title, and ending with the suffix `" (You: N% yes)"` exactly when
`yourLatestPrediction` is present, where `N` is the fractional probability
times 100 rendered with zero decimal places. -/
theorem enhance_glyph_cases (q : Question) (h : q.title ≠ "") :
    enhanceFatebookLink (Except.ok ⟨true, q⟩) =
      some ((if q.resolved then
               if q.resolution = some "YES" then "✅ "
               else if q.resolution = some "NO" then "❌ "
               else "🤷"
             else "⚖")
            ++ " " ++ q.title
            ++ (match q.yourLatestPrediction with
                | some p => " (You: " ++ toString (toFixed0 (p * 100)) ++ "% yes)"
                | none => "")) := by
  simp only [enhanceFatebookLink, Bool.not_true, Bool.false_eq_true, if_false, if_neg h]

/-- Witness for `enhance_glyph_cases` at a concrete resolved-YES question with
a 0.7 latest prediction. -/
theorem enhance_glyph_cases_witness :
    q1W.title ≠ "" ∧
    enhanceFatebookLink (Except.ok ⟨true, q1W⟩) =
      some ((if q1W.resolved then
               if q1W.resolution = some "YES" then "✅ "
               else if q1W.resolution = some "NO" then "❌ "
               else "🤷"
             else "⚖")
            ++ " " ++ q1W.title
            ++ (match q1W.yourLatestPrediction with
                | some p => " (You: " ++ toString (toFixed0 (p * 100)) ++ "% yes)"
                | none => "")) :=
  ⟨by decide, enhance_glyph_cases q1W (by decide)⟩

/-- C2: for every incoming message, the resize path of `handleIframeMessage`
(the branch guarded by `action === 'resize_iframe'`, which would set the
iframe's width and height from `rest.box`) never executes, because it is
nested inside the case entered only when `action === 'load-url'`. -/
theorem resize_branch_dead (loginSet : Bool) (data : Option MsgData) (w h : Int) :
    Effect.setWidthHeight w h ∉ handleIframeMessage loginSet data := by
  cases data with
  | none => simp [handleIframeMessage]
  | some d =>
    simp only [handleIframeMessage]
    by_cases hf : d.isFatebook <;> simp [hf]
    by_cases h1 : d.action = "prediction_cancel" <;> simp [h1]
    by_cases h2 : d.action = "prediction_create_success" <;> simp [h2]
    by_cases h3 : d.action = "load-url" <;> simp [h3]
    cases getWebviewByEmbedId loginSet d.embedId with
    | none => simp
    | some iframe => simp [h3]

/-- Counterexample to C10 as stated: `msgProto`'s embed id `"__proto__"` is
not one of the known embed identifiers, yet `getWebviewByEmbedId` does not
return `null` — `webviews[embedId] || null` finds the truthy member inherited
from `Object.prototype` — and the handler performs a state change, assigning
`rest.src` to that object's `src` property. -/
theorem handle_message_proto_cex :
    msgProto.embedId ∉ ["predict-modal", "question-loader", "login"]
    ∧ getWebviewByEmbedId true msgProto.embedId ≠ none
    ∧ handleIframeMessage true (some msgProto)
        = [Effect.setSrc (JsRef.protoMember "__proto__") (some "http://example.com")] :=
  ⟨by decide, by decide, by decide⟩

/-- C10 (amended): `handleIframeMessage` performs no effect for a null message
or one without a truthy `isFatebook` discriminator; a `load-url` message whose
`embedId` makes `webviews[embedId] || null` actually `null` (neither a known
embed identifier nor an `Object.prototype` property name) likewise does
nothing; but a `load-url` message whose unknown `embedId` names an inherited
`Object.prototype` member makes the handler assign `rest.src` to that truthy
object's `src` property (the case forced by `handle_message_proto_cex`); and
no input makes the handler throw (the only throwing read, `rest.box.width`,
is unreachable). -/
theorem handle_message_safe (loginSet : Bool) (d : MsgData) :
    handleIframeMessage loginSet none = []
    ∧ (d.isFatebook = false → handleIframeMessage loginSet (some d) = [])
    ∧ (d.action = "load-url" → getWebviewByEmbedId loginSet d.embedId = none →
        handleIframeMessage loginSet (some d) = [])
    ∧ (d.isFatebook = true → d.action = "load-url" → d.embedId ∈ protoProps →
        handleIframeMessage loginSet (some d)
          = [Effect.setSrc (JsRef.protoMember d.embedId) d.src])
    ∧ (∀ data : Option MsgData, Effect.throwTypeError ∉ handleIframeMessage loginSet data) := by
  refine ⟨rfl, ?_, ?_, ?_, ?_⟩
  · intro hf; simp [handleIframeMessage, hf]
  · intro ha hw; simp [handleIframeMessage, ha, hw]
  · intro hf ha hmem
    have h1 : d.embedId ≠ "predict-modal" := by
      intro h; rw [h] at hmem; exact absurd hmem (by decide)
    have h2 : d.embedId ≠ "question-loader" := by
      intro h; rw [h] at hmem; exact absurd hmem (by decide)
    have h3 : d.embedId ≠ "login" := by
      intro h; rw [h] at hmem; exact absurd hmem (by decide)
    have hlook : getWebviewByEmbedId loginSet d.embedId
        = some (JsRef.protoMember d.embedId) := by
      unfold getWebviewByEmbedId
      rw [if_neg h1, if_neg h2, if_neg h3, if_pos hmem]
    simp [handleIframeMessage, hf, ha, hlook]
  · intro data
    cases data with
    | none => simp [handleIframeMessage]
    | some m =>
      simp only [handleIframeMessage]
      by_cases hf : m.isFatebook <;> simp [hf]
      by_cases h1 : m.action = "prediction_cancel" <;> simp [h1]
      by_cases h2 : m.action = "prediction_create_success" <;> simp [h2]
      by_cases h3 : m.action = "load-url" <;> simp [h3]
      cases getWebviewByEmbedId loginSet m.embedId with
      | none => simp
      | some iframe => simp [h3]

/-- Witness for `handle_message_safe`: a non-Fatebook `load-url` message with
an unknown non-prototype embed id produces no effects; a Fatebook `load-url`
message with embed id `"__proto__"` assigns `src` on the inherited prototype
member; and the latter input does not throw. -/
theorem handle_message_safe_witness :
    handleIframeMessage false (some msgW) = []
    ∧ handleIframeMessage true (some msgProto)
        = [Effect.setSrc (JsRef.protoMember msgProto.embedId) msgProto.src]
    ∧ Effect.throwTypeError ∉ handleIframeMessage true (some msgProto) :=
  ⟨(handle_message_safe false msgW).2.2.1 (by decide) (by decide),
   (handle_message_safe true msgProto).2.2.2.1 (by decide) (by decide) (by decide),
   (handle_message_safe true msgProto).2.2.2.2 (some msgProto)⟩

/-! ### C3 helper lemmas: on line-terminator-free input the backtracking
matcher computes the portion after the last `--`. -/

theorem lazyCap_of_dots (l : Chars) (h : ∀ c ∈ l, jsDot c = true) :
    lazyCap l = some (l.takeWhile (fun c => !stopChar c)) := by
  induction l with
  | nil => rfl
  | cons c rest ih =>
    by_cases hs : stopChar c
    · simp [lazyCap, hs, List.takeWhile_cons, Bool.not_eq_true']
    · have hd : jsDot c = true := h c (List.mem_cons_self c rest)
      have hrest : ∀ x ∈ rest, jsDot x = true := fun x hx => h x (List.mem_cons_of_mem c hx)
      simp [lazyCap, hs, hd, ih hrest, List.takeWhile_cons]

theorem greedyFrom_of_dots (l : Chars) (h : ∀ c ∈ l, jsDot c = true) :
    greedyFrom l = specSplit l := by
  induction l with
  | nil => rfl
  | cons c rest ih =>
    have hd : jsDot c = true := h c (List.mem_cons_self c rest)
    have hrest : ∀ x ∈ rest, jsDot x = true := fun x hx => h x (List.mem_cons_of_mem c hx)
    simp only [greedyFrom, specSplit, hd, if_true, ih hrest]
    cases hs : specSplit rest with
    | some r => rfl
    | none =>
      rcases rest with _ | ⟨c2, rest2⟩
      · rfl
      · by_cases h12 : c = '-' ∧ c2 = '-'
        · have : ∀ x ∈ rest2, jsDot x = true :=
            fun x hx => hrest x (List.mem_cons_of_mem _ hx)
          simp [h12, lazyCap_of_dots rest2 this]
        · simp [h12]

theorem greedyFrom_none_tail (c : Char) (rest : Chars) (hd : jsDot c = true)
    (h : greedyFrom (c :: rest) = none) : greedyFrom rest = none := by
  simp only [greedyFrom, hd, if_true] at h
  cases hg : greedyFrom rest with
  | none => rfl
  | some r => rw [hg] at h; exact absurd h (by simp)

theorem findMatch_of_dots (l : Chars) (h : ∀ c ∈ l, jsDot c = true) :
    findMatch l = greedyFrom l := by
  induction l with
  | nil => rfl
  | cons c rest ih =>
    have hd : jsDot c = true := h c (List.mem_cons_self c rest)
    have hrest : ∀ x ∈ rest, jsDot x = true := fun x hx => h x (List.mem_cons_of_mem c hx)
    simp only [findMatch]
    cases hg : greedyFrom (c :: rest) with
    | some r => rfl
    | none =>
      rw [ih hrest, greedyFrom_none_tail c rest hd hg]

theorem mem_of_mem_takeWhile_local {p : Char → Bool} {a : Char} :
    ∀ {l : Chars}, a ∈ l.takeWhile p → a ∈ l
  | c :: rest, h => by
    rw [List.takeWhile_cons] at h
    by_cases hp : p c
    · rw [if_pos hp] at h
      rcases List.mem_cons.mp h with h | h
      · exact h ▸ List.mem_cons_self c rest
      · exact List.mem_cons_of_mem c (mem_of_mem_takeWhile_local h)
    · rw [if_neg hp] at h; cases h

theorem mem_of_mem_lastSegment {a : Char} {l : Chars} (h : a ∈ lastSegment l) : a ∈ l := by
  unfold lastSegment at h
  rw [List.mem_reverse] at h
  exact List.mem_reverse.mp (mem_of_mem_takeWhile_local h)

/-- C3 (amended): for every URL string free of ECMAScript line terminators,
`getQuestionIdFromUrl` returns the identifier the claim describes: the last
path segment when it contains no `--`, the portion after the last `--` up to
the first `?`/`&` or the end otherwise, and `""` for an empty segment
(`specQuestionId` is that description verbatim).  The restriction is forced by
`getQuestionId_newline_cex`: the regex's `.` cannot cross a line terminator. -/
theorem getQuestionId_spec (url : String) (h : ∀ c ∈ url.toList, jsDot c = true) :
    getQuestionIdFromUrl url = specQuestionId url := by
  have hseg : ∀ c ∈ lastSegment url.toList, jsDot c = true :=
    fun c hc => h c (mem_of_mem_lastSegment hc)
  unfold getQuestionIdFromUrl specQuestionId
  simp only [findMatch_of_dots _ hseg, greedyFrom_of_dots _ hseg]

/-- Witness for `getQuestionId_spec` at a realistic question URL. -/
theorem getQuestionId_spec_witness :
    (∀ c ∈ urlW.toList, jsDot c = true) ∧ getQuestionIdFromUrl urlW = specQuestionId urlW :=
  ⟨by decide, getQuestionId_spec urlW (by decide)⟩

/-- Counterexample to C3 as stated: for the URL `https://fatebook.io/q/a--b\nc`
(a newline inside the segment, reachable because the link regex's `[^)]+`
matches newlines), the last segment contains `--`, yet the code returns the
whole segment `a--b\nc` while the claim demands the portion `b\nc` after the
last `--`. -/
theorem getQuestionId_newline_cex :
    getQuestionIdFromUrl urlCex = "a--b\nc" ∧ specQuestionId urlCex = "b\nc" ∧
    getQuestionIdFromUrl urlCex ≠ specQuestionId urlCex := by
  refine ⟨by decide, by decide, by decide⟩

/-- Counterexample to C5 as stated: the `checkLoginStatus` at main.js 238-247
never inspects the JSON body, so a delivered `200` response whose JSON has no
`user` field still sets `isLoggedIn` to `true`, while the claim requires
`isLoggedIn = true` only when the returned JSON contains a `user` field. -/
theorem checkLoginStatus_probe_cex :
    checkLoginStatusProbe (Except.ok ⟨200, ⟨none⟩⟩) = true ∧
    (⟨none⟩ : SessionBody).user.isSome = false := by
  exact ⟨by decide, by decide⟩

/-- C5 (amended): after a completed call of the session-endpoint variant of
`checkLoginStatus` (main.js 622-631), `isLoggedIn` is `false` whenever the
network call (or JSON parse) threw, and `true` exactly when the returned JSON
object contains a `user` field; the probe variant (main.js 238-247) also maps
a throw to `false` but otherwise sets `isLoggedIn` to `status ≠ 401`,
ignoring the body. -/
theorem checkLoginStatus_behavior :
    checkLoginStatusSession (Except.error ()) = false
    ∧ (∀ d : SessionBody, checkLoginStatusSession (Except.ok d) = d.user.isSome)
    ∧ checkLoginStatusProbe (Except.error ()) = false
    ∧ (∀ r : StatusResp, checkLoginStatusProbe (Except.ok r) = decide (r.status ≠ 401)) :=
  ⟨rfl, fun _ => rfl, rfl, fun _ => rfl⟩

theorem debRun_pending (wait : Nat) {α : Type} :
    ∀ (calls : List (Nat × α)) (t : Nat) (a : α),
      debRun wait calls (some (t + wait, a)) = specDebounce wait ((t, a) :: calls) := by
  intro calls
  induction calls with
  | nil => intro t a; rfl
  | cons p rest ih =>
    intro t a
    obtain ⟨t2, b⟩ := p
    simp only [debRun, specDebounce, ih t2 b]

/-- C6: for every finite, time-ordered sequence of calls to the wrapper
produced by `debounce(f, wait)` (as used for the link-enhancement pass),
`f` runs at most once per quiet period: a call's execution survives exactly
when no further call arrives before its `wait`-millisecond deadline, it then
runs at that deadline with the arguments of that (most recent) call, and every
call that is followed within `wait` milliseconds by another is cancelled —
which is precisely `specDebounce`. -/
theorem debounce_spec (wait : Nat) {α : Type} (calls : List (Nat × α))
    (hsorted : strictTimes calls = true) :
    debounceExec wait calls = specDebounce wait calls := by
  cases calls with
  | nil => rfl
  | cons p rest =>
    obtain ⟨t, a⟩ := p
    simpa only [debounceExec, debRun] using debRun_pending wait rest t a

/-- Witness for `debounce_spec`: with `wait = 10`, calls at 0, 5 and 100 run
the function twice — at 15 with the second call's arguments (the first call is
cancelled by the second) and at 110 with the third call's arguments. -/
theorem debounce_spec_witness :
    strictTimes callsW = true ∧ debounceExec 10 callsW = specDebounce 10 callsW ∧
    specDebounce 10 callsW = [(15, 2), (110, 3)] :=
  ⟨by decide, debounce_spec 10 callsW (by decide), by decide⟩

theorem runLogin_ticks_after_clear (ticks : List LoginEv) :
    ∀ s : PollState, s.intervalActive = false → (∀ e ∈ ticks, isTick e = true) →
      runLogin s ticks = (s, []) := by
  induction ticks with
  | nil => intro s _ _; rfl
  | cons e rest ih =>
    intro s hact hticks
    cases e with
    | tick st =>
      have h' := ih s hact fun x hx => hticks x (List.mem_cons_of_mem _ hx)
      simp [runLogin, loginStep, hact, h']
    | ensure id st =>
      exact absurd (hticks _ (List.mem_cons_self _ rest)) (by simp [isTick])

theorem runLogin_logged_out (pre : List LoginEv) :
    ∀ s : PollState, s.intervalActive = true → (∀ e ∈ pre, evStatus e = false) →
      ∃ b, runLogin s pre = (⟨b, true, s.callbacks ++ queuedIds pre⟩, []) := by
  induction pre with
  | nil =>
    intro s hact _
    exact ⟨s.isLoggedIn, by simp [runLogin, queuedIds, ← hact]⟩
  | cons e rest ih =>
    intro s hact hpre
    have hrest : ∀ x ∈ rest, evStatus x = false :=
      fun x hx => hpre x (List.mem_cons_of_mem _ hx)
    have he : evStatus e = false := hpre e (List.mem_cons_self _ rest)
    cases e with
    | tick st =>
      have hst : st = false := he
      subst hst
      obtain ⟨b, hb⟩ := ih { s with isLoggedIn := false } hact hrest
      simp only [hact] at hb
      exact ⟨b, by simp [runLogin, loginStep, hact, hb, queuedIds]⟩
    | ensure id st =>
      have hst : st = false := he
      subst hst
      obtain ⟨b, hb⟩ :=
        ih { s with isLoggedIn := false, callbacks := s.callbacks ++ [id] } hact hrest
      simp only [hact] at hb
      exact ⟨b, by simp [runLogin, loginStep, hact, hb, queuedIds]⟩

/-- C7: starting from a state with the polling interval installed, after any
run of steps that all observe a logged-out status (queueing any number of
`ensureLoggedIn` waiters), the first poll tick that observes `isLoggedIn`
true clears the interval — so the remaining poll ticks, whatever status they
would observe, run nothing and change nothing — and in that same step resolves
exactly the previously queued promises (in queueing order) and resets
`loginCallbacks` to empty. -/
theorem login_poll_clears (s : PollState) (pre rest : List LoginEv)
    (hact : s.intervalActive = true)
    (hpre : ∀ e ∈ pre, evStatus e = false)
    (hrest : ∀ e ∈ rest, isTick e = true) :
    runLogin s (pre ++ LoginEv.tick true :: rest)
      = (⟨true, false, []⟩, s.callbacks ++ queuedIds pre) := by
  obtain ⟨b, hb⟩ := runLogin_logged_out pre s hact hpre
  have happ : ∀ (xs ys : List LoginEv) (st : PollState),
      runLogin st (xs ++ ys)
        = ((runLogin (runLogin st xs).1 ys).1,
           (runLogin st xs).2 ++ (runLogin (runLogin st xs).1 ys).2) := by
    intro xs
    induction xs with
    | nil => intro ys st; simp [runLogin]
    | cons e es ih => intro ys st; simp [runLogin, ih]
  rw [happ pre (LoginEv.tick true :: rest) s, hb]
  have hclear := runLogin_ticks_after_clear rest ⟨true, false, []⟩ rfl hrest
  simp [runLogin, loginStep, hclear]

/-- Witness for `login_poll_clears`: waiters 1 and 2 queue while logged out;
the first successful tick resolves `[1, 2]`, clears the interval and empties
the queue, and the two later ticks (one of them with status true) are no-ops. -/
theorem login_poll_clears_witness :
    runLogin pollW (preW ++ LoginEv.tick true :: restW) = (⟨true, false, []⟩, [1, 2]) := by
  have h := login_poll_clears pollW preW restW (by decide) (by decide) (by decide)
  simpa using h

/-! ### Lemmas about `leadsWith` / `replaceFirst`: first-occurrence
replacement hits the intended position when no occurrence starts earlier. -/

theorem leadsWith_self_append (f post : Chars) : leadsWith f (f ++ post) = true := by
  induction f with
  | nil => rfl
  | cons x f' ih => simp [leadsWith, ih]

theorem replaceFirst_cons (pat repl : Chars) (c : Char) (rest : Chars) :
    replaceFirst pat repl (c :: rest) =
      if leadsWith pat (c :: rest) = true then repl ++ (c :: rest).drop pat.length
      else c :: replaceFirst pat repl rest := rfl

theorem drop_len_append (f post : Chars) : (f ++ post).drop f.length = post := by
  induction f with
  | nil => rfl
  | cons x f' ih => exact ih

theorem leadsWith_extend (a b post : Chars) (h : leadsWith a b = true) :
    leadsWith a (b ++ post) = true := by
  induction a generalizing b with
  | nil => rfl
  | cons x a' ih =>
    cases b with
    | nil => simp [leadsWith] at h
    | cons y b' =>
      simp only [leadsWith, Bool.and_eq_true, decide_eq_true_eq] at h
      simp only [List.cons_append, leadsWith, Bool.and_eq_true, decide_eq_true_eq]
      exact ⟨h.1, ih b' h.2⟩

theorem leadsWith_dropLast_self (l : Chars) : leadsWith l.dropLast l = true := by
  induction l with
  | nil => rfl
  | cons x rest ih =>
    cases rest with
    | nil => rfl
    | cons y r' =>
      simp only [List.dropLast_cons₂, leadsWith, Bool.and_eq_true, decide_eq_true_eq]
      exact ⟨trivial, ih⟩

theorem leadsWith_congr_append (p a b : Chars) : leadsWith (p ++ a) (p ++ b) = leadsWith a b := by
  induction p with
  | nil => rfl
  | cons x p' ih => simp [leadsWith, ih]

theorem leadsWith_of_le (a b X : Chars) (ha : leadsWith a X = true) (hb : leadsWith b X = true)
    (hl : a.length ≤ b.length) : leadsWith a b = true := by
  induction a generalizing b X with
  | nil => rfl
  | cons x a' ih =>
    cases b with
    | nil => simp at hl
    | cons y b' =>
      cases X with
      | nil => simp [leadsWith] at ha
      | cons z X' =>
        simp only [leadsWith, Bool.and_eq_true, decide_eq_true_eq] at ha hb ⊢
        exact ⟨ha.1.trans hb.1.symm, ih b' X' ha.2 hb.2 (by simpa using hl)⟩

theorem replaceFirst_exact (f r : Chars) (hne : f ≠ []) :
    ∀ (pre post : Chars), occursIn f (pre ++ f.dropLast) = false →
      replaceFirst f r (pre ++ (f ++ post)) = pre ++ (r ++ post) := by
  intro pre
  induction pre with
  | nil =>
    intro post _
    cases f with
    | nil => exact absurd rfl hne
    | cons x f' =>
      have hlw : leadsWith (x :: f') (x :: (f' ++ post)) = true := leadsWith_self_append (x :: f') post
      simp only [List.nil_append]
      rw [show (x :: f') ++ post = x :: (f' ++ post) from rfl, replaceFirst_cons, if_pos hlw]
      rw [show x :: (f' ++ post) = (x :: f') ++ post from rfl, drop_len_append]
  | cons c pre' ih =>
    intro post hno
    have hno2 : leadsWith f (c :: (pre' ++ f.dropLast)) = false ∧
        occursIn f (pre' ++ f.dropLast) = false := by
      have := hno
      simp only [List.cons_append, occursIn, Bool.or_eq_false_iff] at this
      exact this
    by_cases hp : leadsWith f (c :: (pre' ++ (f ++ post))) = true
    · exfalso
      have h2 : leadsWith f.dropLast (f ++ post) = true :=
        leadsWith_extend _ _ _ (leadsWith_dropLast_self f)
      have h1 : leadsWith (c :: (pre' ++ f.dropLast)) (c :: (pre' ++ (f ++ post))) = true := by
        rw [show c :: (pre' ++ f.dropLast) = (c :: pre') ++ f.dropLast from rfl,
            show c :: (pre' ++ (f ++ post)) = (c :: pre') ++ (f ++ post) from rfl,
            leadsWith_congr_append]
        exact h2
      have hfpos : 0 < f.length := List.length_pos.mpr hne
      have h3 : leadsWith f (c :: (pre' ++ f.dropLast)) = true := by
        refine leadsWith_of_le f _ _ hp h1 ?_
        simp only [List.length_cons, List.length_append, List.length_dropLast]
        omega
      rw [h3] at hno2
      exact absurd hno2.1 (by simp)
    · have hstep : replaceFirst f r (c :: (pre' ++ (f ++ post)))
          = c :: replaceFirst f r (pre' ++ (f ++ post)) := by
        simp [replaceFirst, hp]
      rw [show (c :: pre') ++ (f ++ post) = c :: (pre' ++ (f ++ post)) from rfl, hstep,
          ih post hno2.2]
      rfl

theorem rewriteText_of_none {env : FetchEnv} {i : Nat} {t u : Chars}
    (h : changeFor env i t u = none) : rewriteText env i t u = t := by
  cases he : enhanceFatebookLink (env i (qidOf u)) with
  | none => unfold rewriteText; rw [he]
  | some e =>
    unfold changeFor at h
    rw [he] at h
    unfold rewriteText
    rw [he]
    change (if e ≠ "" ∧ e.toList ≠ t then
        some (⟨fullStr t u, fullStr e.toList u⟩ : Change) else none) = none at h
    change (if e ≠ "" ∧ e.toList ≠ t then e.toList else t) = t
    by_cases hcnd : e ≠ "" ∧ e.toList ≠ t
    · rw [if_pos hcnd] at h; cases h
    · rw [if_neg hcnd]

theorem changeFor_some_eq {env : FetchEnv} {i : Nat} {t u : Chars} {ch : Change}
    (h : changeFor env i t u = some ch) :
    ch.fromStr = fullStr t u ∧ ch.toStr = fullStr (rewriteText env i t u) u := by
  cases he : enhanceFatebookLink (env i (qidOf u)) with
  | none =>
    unfold changeFor at h
    rw [he] at h
    change (none : Option Change) = some ch at h
    cases h
  | some e =>
    unfold changeFor at h
    rw [he] at h
    change (if e ≠ "" ∧ e.toList ≠ t then
        some (⟨fullStr t u, fullStr e.toList u⟩ : Change) else none) = some ch at h
    by_cases hcnd : e ≠ "" ∧ e.toList ≠ t
    · rw [if_pos hcnd] at h
      injection h with h
      subst h
      refine ⟨rfl, ?_⟩
      show fullStr e.toList u = fullStr (rewriteText env i t u) u
      unfold rewriteText
      rw [he]
      change fullStr e.toList u = fullStr (if e ≠ "" ∧ e.toList ≠ t then e.toList else t) u
      rw [if_pos hcnd]
    · rw [if_neg hcnd] at h; cases h

theorem fullStr_ne_nil (t u : Chars) : fullStr t u ≠ [] := by simp [fullStr]

/-- The apply phase realises the intended per-match rewrite whenever the
no-mistargeting condition `applySafe` holds: starting from any already
rewritten prefix `acc`, applying the queued changes to
`acc ++ gaps/matches-interleaving` yields the same gaps interleaved with the
intended piece texts. -/
theorem applyChanges_decomp (env : FetchEnv) :
    ∀ (ms : List (Chars × Chars)) (gaps : List Chars) (i : Nat) (acc : Chars),
      applySafe env i acc gaps ms = true →
      applyChanges (acc ++ interleave gaps (ms.map (fun p => fullStr p.1 p.2)))
          (changesFrom env i ms)
        = acc ++ interleave gaps (rewritePieces env i ms) := by
  intro ms
  induction ms with
  | nil => intro gaps i acc _; rfl
  | cons p ms ih =>
    intro gaps i acc hsafe
    obtain ⟨t, u⟩ := p
    cases gaps with
    | nil => exact absurd hsafe (by simp [applySafe])
    | cons g gs =>
      simp only [applySafe] at hsafe
      cases hc : changeFor env i t u with
      | none =>
        rw [hc] at hsafe
        have ih' := ih gs (i + 1) (acc ++ g ++ fullStr t u) hsafe
        simp only [changesFrom, hc, List.map_cons, interleave, rewritePieces,
          rewriteText_of_none hc]
        simp only [List.append_assoc] at ih'
        exact ih'
      | some ch =>
        rw [hc] at hsafe
        rw [Bool.and_eq_true] at hsafe
        obtain ⟨hocc, hsafe'⟩ := hsafe
        rw [Bool.not_eq_true'] at hocc
        obtain ⟨hfrom, hto⟩ := changeFor_some_eq hc
        simp only [changesFrom, hc, List.map_cons, interleave, rewritePieces]
        have hrepl : replaceFirst ch.fromStr ch.toStr
            (acc ++ (g ++ (fullStr t u ++ interleave gs (ms.map (fun p => fullStr p.1 p.2)))))
            = (acc ++ g) ++ (ch.toStr ++ interleave gs (ms.map (fun p => fullStr p.1 p.2))) := by
          rw [hfrom, show acc ++ (g ++ (fullStr t u ++ interleave gs (ms.map (fun p => fullStr p.1 p.2))))
              = (acc ++ g) ++ (fullStr t u ++ interleave gs (ms.map (fun p => fullStr p.1 p.2)))
            by simp [List.append_assoc]]
          exact replaceFirst_exact (fullStr t u) ch.toStr (fullStr_ne_nil t u) (acc ++ g) _ hocc
        have hstep : applyChanges
            (acc ++ (g ++ (fullStr t u ++ interleave gs (ms.map (fun p => fullStr p.1 p.2)))))
            (ch :: changesFrom env (i + 1) ms)
            = applyChanges ((acc ++ g) ++ (ch.toStr ++ interleave gs
                (ms.map (fun p => fullStr p.1 p.2)))) (changesFrom env (i + 1) ms) := by
          simp only [applyChanges, List.foldl_cons, hrepl]
        rw [hstep]
        have ih' := ih gs (i + 1) (acc ++ g ++ ch.toStr) hsafe'
        simp only [List.append_assoc] at ih' ⊢
        rw [ih', hto]

/-- C8 (amended): for every document that decomposes into gaps and scan
matches, and every fetch environment satisfying the no-mistargeting condition
`applySafe` (each queued change's original link text has no occurrence
starting before its own match at application time), `enhanceMarkdownLinks`
changes only the display text of matched links: the result is the same gaps
interleaved with `[enhancedText](url)` pieces — the URL of every match and
every character outside the matches unchanged.  The condition is forced by
`enhanceMarkdownLinks_frame_cex`. -/
theorem enhanceMarkdownLinks_frame (env : FetchEnv) (gaps : List Chars)
    (ms : List (Chars × Chars)) (content : Chars)
    (hcontent : content = interleave gaps (ms.map (fun p => fullStr p.1 p.2)))
    (hscan : scanLinks content = ms)
    (hsafe : applySafe env 0 [] gaps ms = true) :
    enhanceMarkdownLinks env content = interleave gaps (rewritePieces env 0 ms) := by
  unfold enhanceMarkdownLinks
  rw [hscan]
  have h := applyChanges_decomp env ms gaps 0 [] hsafe
  simp only [List.nil_append] at h
  rw [← hcontent] at h
  exact h

/-- Witness for `enhanceMarkdownLinks_frame`: an ordinary one-link document is
rewritten in place, gaps untouched. -/
theorem enhanceMarkdownLinks_frame_witness :
    enhanceMarkdownLinks envW8 contentW8 = interleave gapsW8 (rewritePieces envW8 0 msW8) :=
  enhanceMarkdownLinks_frame envW8 gapsW8 msW8 contentW8 (by decide) (by decide) (by decide)

/-- Counterexample to C8 as stated: on `contentC8` (whose first link's URL
contains, with the shared closing parenthesis, a copy of the second link's
text) the apply phase replaces the copy inside the first link's URL instead of
the second link, so the result is not the in-place rewrite the claim
describes. -/
theorem enhanceMarkdownLinks_frame_cex :
    scanLinks contentC8 = msC8
    ∧ contentC8 = interleave gapsC8 (msC8.map (fun p => fullStr p.1 p.2))
    ∧ enhanceMarkdownLinks envC8 contentC8 ≠ interleave gapsC8 (rewritePieces envC8 0 msC8) :=
  ⟨by decide, by decide, by decide⟩

theorem enhance_of_fail {resp : Except Unit Response}
    (h : resp = Except.error () ∨ ∃ r, resp = Except.ok r ∧ r.ok = false) :
    enhanceFatebookLink resp = none := by
  rcases h with h | ⟨r, hr, hok⟩
  · rw [h]; rfl
  · rw [hr]; simp [enhanceFatebookLink, hok]

theorem changeFor_of_enhance_none {env : FetchEnv} {i : Nat} {t u : Chars}
    (h : enhanceFatebookLink (env i (qidOf u)) = none) : changeFor env i t u = none := by
  unfold changeFor
  rw [h]

theorem changesFrom_append (env : FetchEnv) (xs ys : List (Chars × Chars)) :
    ∀ i, changesFrom env i (xs ++ ys) = changesFrom env i xs ++ changesFrom env (i + xs.length) ys := by
  induction xs with
  | nil => intro i; simp [changesFrom]
  | cons p xs ih =>
    intro i
    obtain ⟨t, u⟩ := p
    have harith : i + (xs.length + 1) = (i + 1) + xs.length := by omega
    show changesFrom env i ((t, u) :: (xs ++ ys)) = _
    simp only [changesFrom, List.length_cons]
    cases hc : changeFor env i t u with
    | some ch => simp [List.cons_append, ih (i + 1), harith]
    | none => simp [ih (i + 1), harith]

theorem rewritePieces_append (env : FetchEnv) (xs ys : List (Chars × Chars)) :
    ∀ i, rewritePieces env i (xs ++ ys)
      = rewritePieces env i xs ++ rewritePieces env (i + xs.length) ys := by
  induction xs with
  | nil => intro i; simp [rewritePieces]
  | cons p xs ih =>
    intro i
    obtain ⟨t, u⟩ := p
    have harith : i + (xs.length + 1) = (i + 1) + xs.length := by omega
    show rewritePieces env i ((t, u) :: (xs ++ ys)) = _
    simp only [rewritePieces, List.length_cons]
    simp [List.cons_append, ih (i + 1), harith]

/-- C4 (amended): a matched link whose fetch throws or returns a non-ok
status gets `none` from `enhanceFatebookLink` and contributes no change —
the other matches are processed exactly as if it were absent — and, provided
the apply phase satisfies the no-mistargeting condition `applySafe` (forced by
`enhance_fail_cex`), the failing link's text stands in the final document
exactly as it was. -/
theorem enhance_fail_skips (env : FetchEnv) (gaps : List Chars)
    (pre post : List (Chars × Chars)) (t u : Chars) (content : Chars)
    (hfa : env pre.length (qidOf u) = Except.error ()
           ∨ ∃ r, env pre.length (qidOf u) = Except.ok r ∧ r.ok = false)
    (hcontent : content = interleave gaps ((pre ++ (t, u) :: post).map (fun p => fullStr p.1 p.2)))
    (hscan : scanLinks content = pre ++ (t, u) :: post)
    (hsafe : applySafe env 0 [] gaps (pre ++ (t, u) :: post) = true) :
    enhanceFatebookLink (env pre.length (qidOf u)) = none
    ∧ changesFrom env 0 (pre ++ (t, u) :: post)
        = changesFrom env 0 pre ++ changesFrom env (pre.length + 1) post
    ∧ enhanceMarkdownLinks env content
        = interleave gaps (rewritePieces env 0 pre
            ++ fullStr t u :: rewritePieces env (pre.length + 1) post) := by
  have henh : enhanceFatebookLink (env pre.length (qidOf u)) = none := enhance_of_fail hfa
  have hcf : changeFor env pre.length t u = none := changeFor_of_enhance_none henh
  have hcf0 : changeFor env (0 + pre.length) t u = none := by rwa [Nat.zero_add]
  refine ⟨henh, ?_, ?_⟩
  · rw [changesFrom_append env pre ((t, u) :: post) 0]
    rw [show changesFrom env (0 + pre.length) ((t, u) :: post)
        = changesFrom env (0 + pre.length + 1) post by
      simp only [changesFrom, hcf0]]
    simp [Nat.zero_add]
  · unfold enhanceMarkdownLinks
    rw [hscan]
    have h := applyChanges_decomp env (pre ++ (t, u) :: post) gaps 0 [] hsafe
    simp only [List.nil_append] at h
    rw [← hcontent] at h
    rw [h, rewritePieces_append env pre ((t, u) :: post) 0]
    have hhead : rewritePieces env (0 + pre.length) ((t, u) :: post)
        = fullStr t u :: rewritePieces env (0 + pre.length + 1) post := by
      simp only [rewritePieces, rewriteText_of_none hcf0]
    rw [hhead]
    simp [Nat.zero_add]

/-- Witness for `enhance_fail_skips`: in a two-link document whose first fetch
throws, the first link is skipped and stands unchanged while the second is
still enhanced. -/
theorem enhance_fail_skips_witness :
    enhanceFatebookLink (envFail0 preW4.length (qidOf uW4)) = none
    ∧ changesFrom envFail0 0 (preW4 ++ (tW4, uW4) :: postW4)
        = changesFrom envFail0 0 preW4 ++ changesFrom envFail0 (preW4.length + 1) postW4
    ∧ enhanceMarkdownLinks envFail0 contentW4
        = interleave gapsW4 (rewritePieces envFail0 0 preW4
            ++ fullStr tW4 uW4 :: rewritePieces envFail0 (preW4.length + 1) postW4) :=
  enhance_fail_skips envFail0 gapsW4 preW4 postW4 tW4 uW4 contentW4 (Or.inl rfl)
    (by decide) (by decide) (by decide)

/-- Counterexample to C4 as stated: on `contentC4` the first link's fetch
throws (so `enhanceFatebookLink` is `none` and no change is recorded for it),
yet the second link's mis-targeted replacement lands inside the first link's
URL, so the failing link's text — present in the original document — no
longer occurs in the result at all, contradicting "left exactly as it was". -/
theorem enhance_fail_cex :
    enhanceFatebookLink (envFail0 0 (qidOf uC4fail)) = none
    ∧ occursIn fullC4fail contentC4 = true
    ∧ occursIn fullC4fail (enhanceMarkdownLinks envFail0 contentC4) = false :=
  ⟨by decide, by decide, by decide⟩

theorem changeFor_rewriteText_none (env : FetchEnv) (i : Nat) (t u : Chars) :
    changeFor env i (rewriteText env i t u) u = none := by
  cases he : enhanceFatebookLink (env i (qidOf u)) with
  | none =>
    unfold changeFor
    rw [he]
  | some e =>
    have hrw : rewriteText env i t u = if e ≠ "" ∧ e.toList ≠ t then e.toList else t := by
      unfold rewriteText
      rw [he]
    unfold changeFor
    rw [he]
    change (if e ≠ "" ∧ e.toList ≠ rewriteText env i t u then
        some (⟨fullStr (rewriteText env i t u) u, fullStr e.toList u⟩ : Change)
      else none) = none
    by_cases hcnd : e ≠ "" ∧ e.toList ≠ t
    · rw [hrw, if_pos hcnd]
      rw [if_neg]
      intro hcon
      exact hcon.2 rfl
    · rw [hrw, if_neg hcnd]
      rw [if_neg hcnd]

theorem changesFrom_rewritten_nil (env : FetchEnv) :
    ∀ (i : Nat) (ms : List (Chars × Chars)),
      changesFrom env i (rewrittenMatches env i ms) = [] := by
  intro i ms
  induction ms generalizing i with
  | nil => rfl
  | cons p ms ih =>
    obtain ⟨t, u⟩ := p
    simp only [rewrittenMatches, changesFrom, changeFor_rewriteText_none env i t u]
    exact ih (i + 1)

/-- C9 (amended): with a fixed fetch environment, a first pass that applies
cleanly (the `applySafe` condition) and whose result scans to exactly the
rewritten links, a second pass queues no change — every freshly computed
enhanced text equals the link's current display text — and leaves the
document identical.  The extra conditions are forced by
`enhance_idempotent_cex`. -/
theorem enhance_idempotent (env : FetchEnv) (gaps : List Chars)
    (ms : List (Chars × Chars)) (content : Chars)
    (hcontent : content = interleave gaps (ms.map (fun p => fullStr p.1 p.2)))
    (hscan : scanLinks content = ms)
    (hsafe : applySafe env 0 [] gaps ms = true)
    (hscan2 : scanLinks (interleave gaps (rewritePieces env 0 ms))
        = rewrittenMatches env 0 ms) :
    changesFrom env 0 (scanLinks (enhanceMarkdownLinks env content)) = []
    ∧ enhanceMarkdownLinks env (enhanceMarkdownLinks env content)
        = enhanceMarkdownLinks env content := by
  have hfirst : enhanceMarkdownLinks env content = interleave gaps (rewritePieces env 0 ms) := by
    unfold enhanceMarkdownLinks
    rw [hscan]
    have h := applyChanges_decomp env ms gaps 0 [] hsafe
    simp only [List.nil_append] at h
    rw [← hcontent] at h
    exact h
  constructor
  · rw [hfirst, hscan2]
    exact changesFrom_rewritten_nil env 0 ms
  · rw [hfirst]
    show enhanceMarkdownLinks env (interleave gaps (rewritePieces env 0 ms)) = _
    unfold enhanceMarkdownLinks
    rw [hscan2, changesFrom_rewritten_nil env 0 ms]
    rfl

/-- Witness for `enhance_idempotent`: the one-link document is enhanced by the
first pass and untouched by the second. -/
theorem enhance_idempotent_witness :
    changesFrom envW9 0 (scanLinks (enhanceMarkdownLinks envW9 contentW9)) = []
    ∧ enhanceMarkdownLinks envW9 (enhanceMarkdownLinks envW9 contentW9)
        = enhanceMarkdownLinks envW9 contentW9 :=
  enhance_idempotent envW9 gapsW9 msW9 contentW9 (by decide) (by decide) (by decide) (by decide)

/-- Counterexample to C9 as stated: on `contentC9` with a fetch environment
that always returns the same data, the first pass mis-targets the copy nested
in the first link's URL and leaves the second link's display text stale, so
the second pass queues a change again and the document changes again. -/
theorem enhance_idempotent_cex :
    changesFrom envC9 0 (scanLinks (enhanceMarkdownLinks envC9 contentC9)) ≠ []
    ∧ enhanceMarkdownLinks envC9 (enhanceMarkdownLinks envC9 contentC9)
        ≠ enhanceMarkdownLinks envC9 contentC9 :=
  ⟨by decide, by decide⟩

end Fatebook
